import Mathlib

/-!
Verification of the path-containment guard and file-operation wrappers of
`src-tauri/src/lib.rs`.

Modelling choices:

* A path is represented by its component list, exactly the sequence produced by
  Rust's `Path::components()` on Unix: an optional leading `RootDir`, an optional
  leading `CurDir` (kept only when the path begins with a lone `.` segment), and
  then `ParentDir` / `Normal` segments.  All Rust path operations used by the
  source (`is_absolute`, `join` / `push`, `parent`, `starts_with`,
  `strip_prefix`, `components`) are component-wise, and the operating system
  resolves two strings with the same component list identically, so this
  representation is a faithful quotient of path strings.
* Candidate strings are parsed into component lists by a character-level scanner
  mirroring the `Path::components()` iterator.
* The ambient environment and filesystem are an abstract world `W` together with
  the record `FsOps` of the primitives the source calls
  (`std::env::current_dir`, `fs::canonicalize`, `Path::exists`,
  `fs::read_to_string`, `fs::create_dir_all`, `fs::write`, `fs::remove_file`,
  `fs::read_dir`).  Mutating primitives return a possibly-changed world even on
  failure; read-only primitives leave the world untouched.
* Rust `io::Error` values are modelled by their `to_string()` rendering, since
  the source only ever converts them to strings.
-/

/-- Rust `std::path::Component` on Unix: the root directory, a `.` segment,
a `..` segment, or a normal named segment. -/
inductive Component where
  | rootDir : Component
  | curDir : Component
  | parentDir : Component
  | normal : String → Component
deriving DecidableEq

/-- A path, represented by its Rust component list. -/
abbrev RPath := List Component

/-- Splits a character sequence at every slash, the separator scan underlying
Rust's component iterator.  Always returns a nonempty list of segments; empty
segments arise from leading, trailing or repeated separators. -/
def splitSlash : List Char → List (List Char)
  | [] => [[]]
  | c :: rest =>
    if c = '/' then [] :: splitSlash rest
    else
      match splitSlash rest with
      | [] => [[c]]
      | seg :: segs => (c :: seg) :: segs

/-- Interprets one nonempty, non-`.` raw segment: `..` becomes `ParentDir`,
anything else a `Normal` segment. -/
def segComp (t : List Char) : Component :=
  if t = ['.', '.'] then Component.parentDir else Component.normal (String.mk t)

/-- Components of a Unix path string, modelling `Path::new(s).components()`:
a leading slash yields `RootDir`; a leading lone `.` segment of a relative path
yields `CurDir`; every other empty or `.` segment is normalized away; `..`
becomes `ParentDir`; anything else is a `Normal` segment. -/
def parseComps (cs : List Char) : RPath :=
  let raw := splitSlash cs
  let hasRoot : Bool := decide (cs.head? = some '/')
  let keepCur : Bool := !hasRoot && decide (raw.head? = some ['.'])
  let segs := raw.filter (fun t => decide (¬ (t = [] ∨ t = ['.'])))
  (if hasRoot then [Component.rootDir] else []) ++
    (if keepCur then [Component.curDir] else []) ++ segs.map segComp

/-- Components of a Rust path string. -/
def parseComponents (s : String) : RPath :=
  parseComps s.data

/-- Rust `Path::is_absolute` on Unix: the path has a root. -/
def isAbsolute (p : RPath) : Bool :=
  match p with
  | Component.rootDir :: _ => true
  | _ => false

/-- Rust `Path::parent`: drops the last component; `none` when there is no
component to drop or the path consists only of the root. -/
def parentComps (p : RPath) : Option RPath :=
  match p.getLast? with
  | none => none
  | some Component.rootDir => none
  | some _ => some p.dropLast

/-- Rust `PathBuf::push` (and hence `Path::join`) at the component level: an
absolute right-hand side replaces the path; otherwise the segments are
appended, and a `CurDir` of the right-hand side is normalized away because it
is no longer at the beginning of the combined string (unless the base was
empty, in which case the combined string is the right-hand side itself). -/
def pushJoin (base rel : RPath) : RPath :=
  if isAbsolute rel then rel
  else if base = [] then rel
  else base ++ rel.filter (fun c => decide (¬ c = Component.curDir))

/-- Fuel-indexed version of the existing-ancestor loop of `ensure_safe_path`:
while the path does not exist, move to its parent; stop when it exists or has
no parent.  Fuel `p.length + 1` always suffices since each parent step drops
one component. -/
def findAncestorFuel (ex : RPath → Bool) : Nat → RPath → RPath
  | 0, p => p
  | n + 1, p =>
    if ex p then p
    else
      match parentComps p with
      | some q => findAncestorFuel ex n q
      | none => p

/-- Longest existing ancestor: the `while !current.exists()` loop of
`ensure_safe_path`. -/
def findExistingAncestor (ex : RPath → Bool) (p : RPath) : RPath :=
  findAncestorFuel ex (p.length + 1) p

/-- Rust `Path::starts_with`: component-wise prefix test. -/
def startsWithComps (p base : RPath) : Bool :=
  decide (base <+: p)

/-- Rust `Path::strip_prefix`: the components after the component-wise prefix,
or failure when the prefix does not match. -/
def stripPrefixComps (p base : RPath) : Option RPath :=
  if base <+: p then some (p.drop base.length) else none

/-- Result of inspecting one directory entry in `list_files`: whether
`entry.path().is_file()` holds (a regular file, hence never a directory), and
the doubly-optional file name, `entry.path().file_name()` composed with
`OsStr::to_str` — the inner `none` models a name that is not valid UTF-8. -/
structure DirEntry where
  isFile : Bool
  fileName : Option (Option String)
deriving DecidableEq

/-- Abstract interface to the process environment and filesystem over a world
type `W`.  Each field models the standard-library primitive the source calls;
errors carry the `to_string()` rendering of the underlying `io::Error`. -/
structure FsOps (W : Type) where
  currentDir : W → Except String RPath
  canonicalize : W → RPath → Except String RPath
  pathExists : W → RPath → Bool
  readToString : W → RPath → Except String String
  createDirAll : W → RPath → Except String Unit × W
  writeFile : W → RPath → String → Except String Unit × W
  writeBinary : W → RPath → List Nat → Except String Unit × W
  removeFile : W → RPath → Except String Unit × W
  readDir : W → RPath → Except String (List (Except String DirEntry))

/-- Step 2 of `ensure_safe_path`: the target is the candidate itself when
absolute, otherwise the working directory joined with the candidate. -/
def resolveTarget (cwd path : RPath) : RPath :=
  if isAbsolute path then path else pushJoin cwd path

/-- Steps 3-6 of `ensure_safe_path`, applied to the already-resolved target:
find the longest existing ancestor, canonicalize it, require it to start with
the canonicalized working directory, and require the non-existing suffix to be
free of `..` components; on success return the resolved target itself. -/
def checkTarget {W : Type} (ops : FsOps W) (w : W) (cwd target : RPath) : Except String RPath :=
  let current := findExistingAncestor (ops.pathExists w) target
  match ops.canonicalize w current with
  | Except.error e => Except.error ("Invalid path: " ++ e)
  | Except.ok canonical_ancestor =>
    if startsWithComps canonical_ancestor cwd then
      match stripPrefixComps target current with
      | none => Except.error ("Path error")
      | some suffix =>
        if suffix.any (fun c => decide (c = Component.parentDir)) then
          Except.error ("Access denied: Path contains \x27..\x27 in non-existing portion")
        else
          Except.ok target
    else
      Except.error ("Access denied: Path is outside working directory")

/-- Rust `ensure_safe_path`: obtain and canonicalize the current working
directory, resolve the candidate against it, and run the containment checks. -/
def ensure_safe_path {W : Type} (ops : FsOps W) (w : W) (path_str : String) :
    Except String RPath :=
  match ops.currentDir w with
  | Except.error e => Except.error e
  | Except.ok cwd0 =>
    match ops.canonicalize w cwd0 with
    | Except.error e => Except.error e
    | Except.ok cwd => checkTarget ops w cwd (resolveTarget cwd (parseComponents path_str))

/-- Rust `read_json`: guard, then read the file to a string. -/
def read_json {W : Type} (ops : FsOps W) (w : W) (path : String) : Except String String :=
  match ensure_safe_path ops w path with
  | Except.error e => Except.error e
  | Except.ok safe_path => ops.readToString w safe_path

/-- Rust `write_json`: guard, ensure the parent directory exists, then write. -/
def write_json {W : Type} (ops : FsOps W) (w : W) (path content : String) :
    Except String Unit × W :=
  match ensure_safe_path ops w path with
  | Except.error e => (Except.error e, w)
  | Except.ok safe_path =>
    match parentComps safe_path with
    | some parent =>
      match ops.createDirAll w parent with
      | (Except.error e, w2) => (Except.error e, w2)
      | (Except.ok _, w2) => ops.writeFile w2 safe_path content
    | none => ops.writeFile w safe_path content

/-- Rust `write_binary_file`: guard, ensure the parent directory exists, then
write the bytes. -/
def write_binary_file {W : Type} (ops : FsOps W) (w : W) (path : String) (content : List Nat) :
    Except String Unit × W :=
  match ensure_safe_path ops w path with
  | Except.error e => (Except.error e, w)
  | Except.ok safe_path =>
    match parentComps safe_path with
    | some parent =>
      match ops.createDirAll w parent with
      | (Except.error e, w2) => (Except.error e, w2)
      | (Except.ok _, w2) => ops.writeBinary w2 safe_path content
    | none => ops.writeBinary w safe_path content

/-- Rust `delete_file`: guard, then remove the file. -/
def delete_file {W : Type} (ops : FsOps W) (w : W) (path : String) :
    Except String Unit × W :=
  match ensure_safe_path ops w path with
  | Except.error e => (Except.error e, w)
  | Except.ok safe_path => ops.removeFile w safe_path

/-- Loop body of `list_files`: walk the directory entries in order, abort on a
failed entry, and collect the names of entries that are regular files and have
a valid UTF-8 file name; every other entry is skipped without a trace. -/
def collectFiles : List (Except String DirEntry) → Except String (List String)
  | [] => Except.ok []
  | Except.error e :: _ => Except.error e
  | Except.ok d :: rest =>
    match collectFiles rest with
    | Except.error e => Except.error e
    | Except.ok names =>
      if d.isFile then
        match d.fileName with
        | some (some name) => Except.ok (name :: names)
        | _ => Except.ok names
      else
        Except.ok names

/-- Rust `list_files`: guard, read the directory, collect file names. -/
def list_files {W : Type} (ops : FsOps W) (w : W) (path : String) :
    Except String (List String) :=
  match ensure_safe_path ops w path with
  | Except.error e => Except.error e
  | Except.ok safe_path =>
    match ops.readDir w safe_path with
    | Except.error e => Except.error e
    | Except.ok entries => collectFiles entries

/-- Rust `join_path`: push every part onto an initially empty `PathBuf` and
return it (always successfully); the result is modelled by the component list
of the joined string. -/
def join_path (parts : List String) : Except String RPath :=
  Except.ok (parts.foldl (fun acc part => pushJoin acc (parseComponents part)) [])

/-- Character sequence of the `PathBuf` obtained by pushing the given
segments in order: the segments joined by single separators.  This is the
string `join_path` produces when every part is a single normal segment. -/
def joinSegsChars : List (List Char) → List Char
  | [] => []
  | [t] => t
  | t :: rest => t ++ '/' :: joinSegsChars rest

/-- String form of the joined path for a list of segment strings. -/
def joinedString (parts : List String) : String :=
  String.mk (joinSegsChars (parts.map String.data))

/-- Predicate: the string is one plain normal path segment — nonempty, free of
separators, and neither `.` nor `..`. -/
def plainSeg (s : String) : Prop :=
  s.data ≠ [] ∧ '/' ∉ s.data ∧ s.data ≠ ['.'] ∧ s.data ≠ ['.', '.']

instance (s : String) : Decidable (plainSeg s) := by
  unfold plainSeg
  infer_instance

/-- Canonical root directory used by the concrete witness worlds: `/work`. -/
def sampleRoot : RPath := [Component.rootDir, Component.normal "work"]

/-- Directory listing used by the `list_files` witness: a regular file with a
UTF-8 name, a directory, a regular file whose name is not valid UTF-8, and a
regular file whose path has no file name. -/
def sampleEntries : List DirEntry :=
  [⟨true, some (some "a.json")⟩, ⟨false, some (some "sub")⟩, ⟨true, some none⟩, ⟨true, none⟩]

/-- Witness world: the working directory is `/work`; only `/` and `/work`
exist; canonicalization is the identity (no symlinks). -/
def sampleOps : FsOps Unit where
  currentDir _ := Except.ok sampleRoot
  canonicalize _ p := Except.ok p
  pathExists _ p := decide (p = [Component.rootDir] ∨ p = sampleRoot)
  readToString _ _ := Except.error ("io error")
  createDirAll _ _ := (Except.ok (), ())
  writeFile _ _ _ := (Except.ok (), ())
  writeBinary _ _ _ := (Except.ok (), ())
  removeFile _ _ := (Except.ok (), ())
  readDir _ _ := Except.ok (sampleEntries.map Except.ok)

/-- Witness world: like `sampleOps` but every path exists, so even existing
absolute paths outside the root are exercised. -/
def allOps : FsOps Unit where
  currentDir _ := Except.ok sampleRoot
  canonicalize _ p := Except.ok p
  pathExists _ _ := true
  readToString _ _ := Except.error ("io error")
  createDirAll _ _ := (Except.ok (), ())
  writeFile _ _ _ := (Except.ok (), ())
  writeBinary _ _ _ := (Except.ok (), ())
  removeFile _ _ := (Except.ok (), ())
  readDir _ _ := Except.ok (sampleEntries.map Except.ok)

/-- Witness world in which obtaining the current working directory fails. -/
def badOps : FsOps Unit where
  currentDir _ := Except.error ("boom")
  canonicalize _ p := Except.ok p
  pathExists _ _ := true
  readToString _ _ := Except.error ("io error")
  createDirAll _ _ := (Except.ok (), ())
  writeFile _ _ _ := (Except.ok (), ())
  writeBinary _ _ _ := (Except.ok (), ())
  removeFile _ _ := (Except.ok (), ())
  readDir _ _ := Except.ok []

/-- World with two ambient states that differ only in the current working
directory (`/a` versus `/b`); the filesystem primitives ignore the state. -/
def cexOps : FsOps Bool where
  currentDir b :=
    Except.ok (if b then [Component.rootDir, Component.normal "a"]
      else [Component.rootDir, Component.normal "b"])
  canonicalize _ p := Except.ok p
  pathExists _ _ := true
  readToString _ _ := Except.error ("io error")
  createDirAll w _ := (Except.ok (), w)
  writeFile w _ _ := (Except.ok (), w)
  writeBinary w _ _ := (Except.ok (), w)
  removeFile w _ := (Except.ok (), w)
  readDir _ _ := Except.ok []

/-- Existing directory `/work/LINK`, a symlink whose canonical form is
`/work/real`. -/
def linkDir : RPath := [Component.rootDir, Component.normal "work", Component.normal "LINK"]

/-- Canonical form of `linkDir`. -/
def realDir : RPath := [Component.rootDir, Component.normal "work", Component.normal "real"]

/-- Witness world containing a symlink: `/work/LINK` exists and canonicalizes
to `/work/real`; everything else canonicalizes to itself. -/
def symOps : FsOps Unit where
  currentDir _ := Except.ok sampleRoot
  canonicalize _ p := Except.ok (if p = linkDir then realDir else p)
  pathExists _ p := decide (p = [Component.rootDir] ∨ p = sampleRoot ∨ p = linkDir)
  readToString _ _ := Except.error ("io error")
  createDirAll _ _ := (Except.ok (), ())
  writeFile _ _ _ := (Except.ok (), ())
  writeBinary _ _ _ := (Except.ok (), ())
  removeFile _ _ := (Except.ok (), ())
  readDir _ _ := Except.ok []

/-- Helper: a path whose last component exists and is not the root has the
expected parent (drop the last component). -/
theorem parentComps_eq_dropLast {p : RPath} {a : Component} (h : p.getLast? = some a)
    (ha : a ≠ Component.rootDir) : parentComps p = some p.dropLast := by
  unfold parentComps
  rw [h]
  cases a with
  | rootDir => exact absurd rfl ha
  | curDir => rfl
  | parentDir => rfl
  | normal s => rfl

/-- Helper: when the base `root` exists and the extension contains no root
component, the ancestor walk from `root ++ l` stops at `root ++ l'` for some
prefix `l'` of `l`. -/
theorem findAncestorFuel_append (ex : RPath → Bool) (root : RPath) (hex : ex root = true) :
    ∀ (n : Nat) (l : List Component), Component.rootDir ∉ l → l.length < n →
      ∃ l', l' <+: l ∧ findAncestorFuel ex n (root ++ l) = root ++ l' := by
  intro n
  induction n with
  | zero => exact fun l _ h => absurd h (Nat.not_lt_zero _)
  | succ n ih =>
    intro l hroot hlen
    by_cases hx : ex (root ++ l) = true
    · exact ⟨l, List.prefix_refl l, by simp [findAncestorFuel, hx]⟩
    · rcases eq_or_ne l [] with rfl | hne
      · rw [List.append_nil] at hx
        exact absurd hex hx
      · obtain ⟨a, ha⟩ : ∃ a, l.getLast? = some a := by
          cases h' : l.getLast? with
          | none => exact absurd (List.getLast?_eq_none_iff.mp h') hne
          | some a => exact ⟨a, rfl⟩
        have hane : a ≠ Component.rootDir := fun h => hroot (h ▸ List.mem_of_mem_getLast? ha)
        have hgl : (root ++ l).getLast? = some a := by
          rw [List.getLast?_append_of_ne_nil root hne]
          exact ha
        have hpar : parentComps (root ++ l) = some (root ++ l.dropLast) := by
          rw [parentComps_eq_dropLast hgl hane, List.dropLast_append_of_ne_nil root hne]
        have hstep : findAncestorFuel ex (n + 1) (root ++ l) =
            findAncestorFuel ex n (root ++ l.dropLast) := by
          simp [findAncestorFuel, hx, hpar]
        have hlen2 : l.dropLast.length < n := by
          have h1 : l.dropLast.length = l.length - 1 := List.length_dropLast l
          have h2 : 0 < l.length := List.length_pos.mpr hne
          omega
        obtain ⟨l', hpre, hfind⟩ :=
          ih l.dropLast (fun hm => hroot (List.mem_of_mem_dropLast hm)) hlen2
        exact ⟨l', hpre.trans (List.dropLast_prefix l), by rw [hstep]; exact hfind⟩

/-- Helper: the existing-ancestor walk from `root ++ l` yields `root ++ l'`
with `l'` a prefix of `l`, provided `root` itself exists. -/
theorem findExistingAncestor_append (ex : RPath → Bool) (root : RPath) (hex : ex root = true)
    (l : List Component) (hroot : Component.rootDir ∉ l) :
    ∃ l', l' <+: l ∧ findExistingAncestor ex (root ++ l) = root ++ l' := by
  apply findAncestorFuel_append ex root hex ((root ++ l).length + 1) l hroot
  have : l.length ≤ (root ++ l).length := by
    rw [List.length_append]
    omega
  omega

/-- Helper: introduction rule for a successful containment check on a target of
the form `root ++ l` in a world where `root` exists and every prefix of the
extension canonicalizes to itself. -/
theorem checkTarget_ok_of {W : Type} (ops : FsOps W) (w : W) (root : RPath) (l : List Component)
    (hex : ops.pathExists w root = true)
    (hroot : Component.rootDir ∉ l)
    (hpd : Component.parentDir ∉ l)
    (hca : ∀ l', l' <+: l → ops.canonicalize w (root ++ l') = Except.ok (root ++ l')) :
    checkTarget ops w root (root ++ l) = Except.ok (root ++ l) := by
  obtain ⟨l', hpre, hfind⟩ := findExistingAncestor_append (ops.pathExists w) root hex l hroot
  obtain ⟨t, rfl⟩ := hpre
  have hcan := hca l' ⟨t, rfl⟩
  have hsw : startsWithComps (root ++ l') root = true := by
    simp only [startsWithComps, decide_eq_true_eq]
    exact List.prefix_append root l'
  have hstrip : stripPrefixComps (root ++ (l' ++ t)) (root ++ l') = some t := by
    unfold stripPrefixComps
    rw [if_pos]
    · rw [← List.append_assoc]
      rw [List.drop_left]
    · rw [← List.append_assoc]
      exact List.prefix_append _ t
  have hany : t.any (fun c => decide (c = Component.parentDir)) = false := by
    rw [Bool.eq_false_iff]
    intro hh
    obtain ⟨c, hc, hdec⟩ := List.any_eq_true.mp hh
    have : c = Component.parentDir := of_decide_eq_true hdec
    exact hpd (this ▸ List.mem_append_right l' hc)
  simp [checkTarget, hfind, hcan, hsw, hstrip, hany]

/-- Helper: elimination rule for a successful containment check: the result is
the target itself, the canonical ancestor carries the working directory as a
component-wise prefix, and the non-existing suffix has no `..` component. -/
theorem checkTarget_ok_elim {W : Type} {ops : FsOps W} {w : W} {cwd t r : RPath}
    (h : checkTarget ops w cwd t = Except.ok r) :
    r = t ∧ ∃ ca suf,
      ops.canonicalize w (findExistingAncestor (ops.pathExists w) t) = Except.ok ca ∧
      (cwd <+: ca) ∧
      stripPrefixComps t (findExistingAncestor (ops.pathExists w) t) = some suf ∧
      Component.parentDir ∉ suf := by
  simp only [checkTarget] at h
  split at h
  · exact absurd h (by simp)
  next ca hca =>
    split at h
    next hsw =>
      split at h
      · exact absurd h (by simp)
      next suf hsuf =>
        split at h
        · exact absurd h (by simp)
        next hany =>
          refine ⟨by injection h with h2; exact h2.symm, ca, suf, hca, ?_, hsuf, ?_⟩
          · simp only [startsWithComps, decide_eq_true_eq] at hsw
            exact hsw
          · intro hmem
            exact hany (List.any_eq_true.mpr ⟨Component.parentDir, hmem, by simp⟩)
    next hsw => exact absurd h (by simp)

/-- Helper: elimination rule for guard success: the environment steps
succeeded and the containment check approved the resolved target. -/
theorem ensure_ok_elim {W : Type} {ops : FsOps W} {w : W} {s : String} {t : RPath}
    (h : ensure_safe_path ops w s = Except.ok t) :
    ∃ cwd0 cwd, ops.currentDir w = Except.ok cwd0 ∧
      ops.canonicalize w cwd0 = Except.ok cwd ∧
      checkTarget ops w cwd (resolveTarget cwd (parseComponents s)) = Except.ok t := by
  unfold ensure_safe_path at h
  split at h
  · exact absurd h (by simp)
  next cwd0 h0 =>
    split at h
    · exact absurd h (by simp)
    next cwd h1 => exact ⟨cwd0, cwd, h0, h1, h⟩

/-- Helper: introduction rule for guard success in a sane world: the working
directory canonicalizes to an absolute `root` that exists, the resolved target
is `root ++ l` with `l` free of root and parent components, and every existing
prefix canonicalizes to itself; then the guard approves with the resolved
target. -/
theorem guard_ok_of_sane {W : Type} (ops : FsOps W) (w : W) (cwd0 root : RPath)
    (l : List Component) (s : String)
    (h0 : ops.currentDir w = Except.ok cwd0)
    (h1 : ops.canonicalize w cwd0 = Except.ok root)
    (hex : ops.pathExists w root = true)
    (hroot : Component.rootDir ∉ l)
    (hpd : Component.parentDir ∉ l)
    (hca : ∀ l', l' <+: l → ops.canonicalize w (root ++ l') = Except.ok (root ++ l'))
    (hparse : resolveTarget root (parseComponents s) = root ++ l) :
    ensure_safe_path ops w s = Except.ok (root ++ l) := by
  have hct := checkTarget_ok_of ops w root l hex hroot hpd hca
  simp only [ensure_safe_path, h0, h1]
  rw [hparse]
  exact hct

/-- Helper: a separator-free character sequence forms a single raw segment. -/
theorem splitSlash_no_slash {t : List Char} (h : '/' ∉ t) : splitSlash t = [t] := by
  induction t with
  | nil => rfl
  | cons c rest ih =>
    have hc : ¬ c = '/' := fun hh => h (hh ▸ List.mem_cons_self c rest)
    have hr : '/' ∉ rest := fun hm => h (List.mem_cons_of_mem c hm)
    simp [splitSlash, hc, ih hr]

/-- Helper: splitting after a separator-free head segment peels it off. -/
theorem splitSlash_append {t : List Char} (rest : List Char) (h : '/' ∉ t) :
    splitSlash (t ++ '/' :: rest) = t :: splitSlash rest := by
  induction t with
  | nil => simp [splitSlash]
  | cons c tt ih =>
    have hc : ¬ c = '/' := fun hh => h (hh ▸ List.mem_cons_self c tt)
    have ht : '/' ∉ tt := fun hm => h (List.mem_cons_of_mem c hm)
    rw [List.cons_append]
    rw [show splitSlash (c :: (tt ++ '/' :: rest)) =
      if c = '/' then [] :: splitSlash (tt ++ '/' :: rest)
      else
        match splitSlash (tt ++ '/' :: rest) with
        | [] => [[c]]
        | seg :: segs => (c :: seg) :: segs from rfl]
    rw [if_neg hc, ih ht]

/-- Helper: splitting the joined form of separator-free segments recovers the
segments. -/
theorem splitSlash_joinSegs (parts : List (List Char)) (hne : parts ≠ [])
    (h : ∀ t ∈ parts, '/' ∉ t) :
    splitSlash (joinSegsChars parts) = parts := by
  induction parts with
  | nil => exact absurd rfl hne
  | cons t rest ih =>
    cases rest with
    | nil => simp [joinSegsChars, splitSlash_no_slash (h t (by simp))]
    | cons t2 rest2 =>
      rw [show joinSegsChars (t :: t2 :: rest2) = t ++ '/' :: joinSegsChars (t2 :: rest2) from rfl]
      rw [splitSlash_append _ (h t (by simp))]
      rw [ih (by simp) (fun u hu => h u (List.mem_cons_of_mem t hu))]

/-- Helper: the joined form of plain character segments parses back to exactly
those segments as normal components. -/
theorem parseComps_plain (parts : List (List Char)) (hne : parts ≠ [])
    (h : ∀ t ∈ parts, t ≠ [] ∧ '/' ∉ t ∧ t ≠ ['.'] ∧ t ≠ ['.', '.']) :
    parseComps (joinSegsChars parts) =
      parts.map (fun t => Component.normal (String.mk t)) := by
  obtain ⟨t, rest, rfl⟩ : ∃ t rest, parts = t :: rest := by
    cases parts with
    | nil => exact absurd rfl hne
    | cons t rest => exact ⟨t, rest, rfl⟩
  have hsplit := splitSlash_joinSegs (t :: rest) (by simp) (fun u hu => (h u hu).2.1)
  have hhead : ¬ (joinSegsChars (t :: rest)).head? = some '/' := by
    intro hh
    have ht := h t (List.mem_cons_self t rest)
    have hmem : '/' ∈ t := by
      cases rest with
      | nil =>
        simp only [joinSegsChars] at hh
        exact List.mem_of_mem_head? hh
      | cons t2 r2 =>
        rw [show joinSegsChars (t :: t2 :: r2) = t ++ '/' :: joinSegsChars (t2 :: r2) from rfl] at hh
        cases t with
        | nil => exact absurd rfl ht.1
        | cons c tc =>
          rw [List.cons_append] at hh
          simp only [List.head?_cons, Option.some_inj] at hh
          exact hh ▸ List.mem_cons_self c tc
    exact ht.2.1 hmem
  simp only [parseComps, hsplit]
  rw [decide_eq_false hhead]
  have hcur : ¬ ((t :: rest).head? = some ['.']) := by
    simp only [List.head?_cons, Option.some_inj]
    exact (h t (List.mem_cons_self t rest)).2.2.1
  rw [decide_eq_false hcur]
  have hfil : (t :: rest).filter (fun u => decide (¬ (u = [] ∨ u = ['.']))) = t :: rest := by
    apply List.filter_eq_self.mpr
    intro u hu
    have hu2 := h u hu
    simp [hu2.1, hu2.2.2.1]
  rw [hfil]
  show (t :: rest).map segComp = (t :: rest).map (fun u => Component.normal (String.mk u))
  apply List.map_congr_left
  intro u hu
  unfold segComp
  rw [if_neg (h u hu).2.2.2]

/-- Helper: parsing the joined string of plain segment strings gives exactly
the normal components of those segments. -/
theorem parse_joined (parts : List String) (h : ∀ s ∈ parts, plainSeg s) :
    parseComponents (joinedString parts) = parts.map Component.normal := by
  cases parts with
  | nil => rfl
  | cons t rest =>
    have hmain := parseComps_plain ((t :: rest).map String.data) (by simp) (by
      intro u hu
      simp only [List.mem_map] at hu
      obtain ⟨s, hs, rfl⟩ := hu
      exact h s hs)
    show parseComps (joinSegsChars ((t :: rest).map String.data)) = _
    rw [hmain, List.map_map]
    rfl

/-- Helper: parsing one plain segment string yields one normal component. -/
theorem parse_plain_seg (s : String) (h : plainSeg s) :
    parseComponents s = [Component.normal s] := by
  have hs : splitSlash s.data = [s.data] := splitSlash_no_slash h.2.1
  have hhead : ¬ (s.data.head? = some '/') := by
    intro hh
    exact h.2.1 (List.mem_of_mem_head? hh)
  show parseComps s.data = _
  simp only [parseComps, hs]
  rw [decide_eq_false hhead]
  have hcur : ¬ (([s.data] : List (List Char)).head? = some ['.']) := by
    simp only [List.head?_cons, Option.some_inj]
    exact h.2.2.1
  rw [decide_eq_false hcur]
  have hfil : ([s.data] : List (List Char)).filter
      (fun u => decide (¬ (u = [] ∨ u = ['.']))) = [s.data] := by
    apply List.filter_eq_self.mpr
    intro u hu
    simp only [List.mem_singleton] at hu
    subst hu
    simp [h.1, h.2.2.1]
  rw [hfil]
  show ([s.data] : List (List Char)).map segComp = [Component.normal s]
  simp only [List.map_cons, List.map_nil]
  unfold segComp
  rw [if_neg h.2.2.2]

/-- Helper: folding plain parts through the push operation from a nonempty
base appends their normal components. -/
theorem foldl_push_plain_aux (parts : List String) (h : ∀ s ∈ parts, plainSeg s) :
    ∀ acc : RPath, acc ≠ [] →
      parts.foldl (fun a p => pushJoin a (parseComponents p)) acc =
        acc ++ parts.map Component.normal := by
  induction parts with
  | nil => intro acc _; simp
  | cons t rest ih =>
    intro acc hacc
    have hp := parse_plain_seg t (h t (List.mem_cons_self t rest))
    have hstep : pushJoin acc (parseComponents t) = acc ++ [Component.normal t] := by
      rw [hp]
      simp [pushJoin, isAbsolute, hacc]
    rw [List.foldl_cons, hstep,
      ih (fun s hs => h s (List.mem_cons_of_mem t hs)) (acc ++ [Component.normal t]) (by simp)]
    simp

/-- Helper: `join_path` on plain segments produces exactly their normal
components and always succeeds. -/
theorem join_path_plain (parts : List String) (h : ∀ s ∈ parts, plainSeg s) :
    join_path parts = Except.ok (parts.map Component.normal) := by
  unfold join_path
  congr 1
  cases parts with
  | nil => rfl
  | cons t rest =>
    have hp := parse_plain_seg t (h t (List.mem_cons_self t rest))
    rw [List.foldl_cons]
    have hstep : pushJoin [] (parseComponents t) = [Component.normal t] := by
      rw [hp]
      rfl
    rw [hstep,
      foldl_push_plain_aux rest (fun s hs => h s (List.mem_cons_of_mem t hs))
        [Component.normal t] (by simp)]
    simp

/-- C1: whenever `ensure_safe_path` approves a candidate, the canonicalized
longest existing ancestor of the resolved target starts with the canonicalized
working directory as a component-wise path prefix (so a sibling such as
`/root2` can never match a root of `/root`, prefixes being whole components),
and the non-existing suffix — the resolved target with the existing-ancestor
prefix stripped — contains no parent-directory component. -/
theorem guard_approval_containment {W : Type} (ops : FsOps W) (w : W) (s : String) (t : RPath)
    (h : ensure_safe_path ops w s = Except.ok t) :
    ∃ cwd0 cwd ca suf,
      ops.currentDir w = Except.ok cwd0 ∧
      ops.canonicalize w cwd0 = Except.ok cwd ∧
      ops.canonicalize w
          (findExistingAncestor (ops.pathExists w) (resolveTarget cwd (parseComponents s))) =
        Except.ok ca ∧
      (cwd <+: ca) ∧
      stripPrefixComps (resolveTarget cwd (parseComponents s))
          (findExistingAncestor (ops.pathExists w) (resolveTarget cwd (parseComponents s))) =
        some suf ∧
      Component.parentDir ∉ suf := by
  obtain ⟨cwd0, cwd, h0, h1, hct⟩ := ensure_ok_elim h
  obtain ⟨-, ca, suf, hca, hsw, hsuf, hpd⟩ := checkTarget_ok_elim hct
  exact ⟨cwd0, cwd, ca, suf, h0, h1, hca, hsw, hsuf, hpd⟩

/-- Witness for C1: the guard approves `logs/app.log` in the `/work` world,
so the containment facts hold there. -/
theorem guard_approval_containment_witness :
    ∃ cwd0 cwd ca suf,
      sampleOps.currentDir () = Except.ok cwd0 ∧
      sampleOps.canonicalize () cwd0 = Except.ok cwd ∧
      sampleOps.canonicalize ()
          (findExistingAncestor (sampleOps.pathExists ())
            (resolveTarget cwd (parseComponents "logs/app.log"))) =
        Except.ok ca ∧
      (cwd <+: ca) ∧
      stripPrefixComps (resolveTarget cwd (parseComponents "logs/app.log"))
          (findExistingAncestor (sampleOps.pathExists ())
            (resolveTarget cwd (parseComponents "logs/app.log"))) =
        some suf ∧
      Component.parentDir ∉ suf :=
  guard_approval_containment sampleOps () "logs/app.log"
    [Component.rootDir, Component.normal "work", Component.normal "logs",
      Component.normal "app.log"] (by rfl)

/-- C2: once the guard has resolved the candidate, found and canonicalized the
existing ancestor, and passed the containment check, a parent-directory
component in the non-existing suffix forces rejection with the
traversal-in-suffix reason, while a suffix free of parent-directory components
is approved — so a `..` lying entirely inside the existing, canonicalizable
ancestor does not by itself cause that rejection. -/
theorem guard_suffix_traversal {W : Type} (ops : FsOps W) (w : W) (s : String)
    (cwd0 cwd ca suf : RPath)
    (h0 : ops.currentDir w = Except.ok cwd0)
    (h1 : ops.canonicalize w cwd0 = Except.ok cwd)
    (hca : ops.canonicalize w
        (findExistingAncestor (ops.pathExists w) (resolveTarget cwd (parseComponents s))) =
      Except.ok ca)
    (hsw : cwd <+: ca)
    (hsuf : stripPrefixComps (resolveTarget cwd (parseComponents s))
        (findExistingAncestor (ops.pathExists w) (resolveTarget cwd (parseComponents s))) =
      some suf) :
    (Component.parentDir ∈ suf →
      ensure_safe_path ops w s =
        Except.error ("Access denied: Path contains \x27..\x27 in non-existing portion")) ∧
    (Component.parentDir ∉ suf →
      ensure_safe_path ops w s = Except.ok (resolveTarget cwd (parseComponents s))) := by
  have hbase : ensure_safe_path ops w s =
      checkTarget ops w cwd (resolveTarget cwd (parseComponents s)) := by
    simp only [ensure_safe_path, h0, h1]
  have hswb : startsWithComps ca cwd = true := by
    simp only [startsWithComps, decide_eq_true_eq]
    exact hsw
  constructor
  · intro hmem
    have hany : suf.any (fun c => decide (c = Component.parentDir)) = true :=
      List.any_eq_true.mpr ⟨Component.parentDir, hmem, by simp⟩
    rw [hbase]
    simp [checkTarget, hca, hswb, hsuf, hany]
  · intro hmem
    have hany : suf.any (fun c => decide (c = Component.parentDir)) = false := by
      rw [Bool.eq_false_iff]
      intro hh
      obtain ⟨c, hc, hdec⟩ := List.any_eq_true.mp hh
      exact hmem ((of_decide_eq_true hdec) ▸ hc)
    rw [hbase]
    simp [checkTarget, hca, hswb, hsuf, hany]

/-- Witness for C2: `newdir/../../escape.txt` with `newdir` absent is rejected
with the traversal-in-suffix reason, while `logs/../logs/app.log` with the
whole chain existing keeps its `..` inside the canonicalizable ancestor and is
approved. -/
theorem guard_suffix_traversal_witness :
    ensure_safe_path sampleOps () "newdir/../../escape.txt" =
      Except.error ("Access denied: Path contains \x27..\x27 in non-existing portion") ∧
    ensure_safe_path allOps () "logs/../logs/app.log" =
      Except.ok [Component.rootDir, Component.normal "work", Component.normal "logs",
        Component.parentDir, Component.normal "logs", Component.normal "app.log"] :=
  ⟨(guard_suffix_traversal sampleOps () "newdir/../../escape.txt" sampleRoot sampleRoot
      sampleRoot
      [Component.normal "newdir", Component.parentDir, Component.parentDir,
        Component.normal "escape.txt"]
      rfl rfl (by rfl) (by decide) (by rfl)).1 (by decide),
    (guard_suffix_traversal allOps () "logs/../logs/app.log" sampleRoot sampleRoot
      [Component.rootDir, Component.normal "work", Component.normal "logs",
        Component.parentDir, Component.normal "logs", Component.normal "app.log"]
      []
      rfl rfl (by rfl) (by decide) (by rfl)).2 (by decide)⟩

/-- C3: an absolute candidate whose canonicalized existing ancestor does not
carry the working directory as a component-wise prefix is rejected with the
boundary-violation reason; no assumption is made about whether the candidate
exists, so the rejection holds regardless of existence. -/
theorem guard_boundary_rejection {W : Type} (ops : FsOps W) (w : W) (s : String)
    (cwd0 cwd ca : RPath)
    (habs : isAbsolute (parseComponents s) = true)
    (h0 : ops.currentDir w = Except.ok cwd0)
    (h1 : ops.canonicalize w cwd0 = Except.ok cwd)
    (hca : ops.canonicalize w (findExistingAncestor (ops.pathExists w) (parseComponents s)) =
      Except.ok ca)
    (hout : ¬ (cwd <+: ca)) :
    ensure_safe_path ops w s =
      Except.error ("Access denied: Path is outside working directory") := by
  have hres : resolveTarget cwd (parseComponents s) = parseComponents s := by
    simp [resolveTarget, habs]
  have hswb : startsWithComps ca cwd = false := by
    simp only [startsWithComps]
    exact decide_eq_false hout
  simp only [ensure_safe_path, h0, h1, hres]
  simp [checkTarget, hca, hswb]

/-- Witness for C3: the absolute candidate `/etc/passwd` is rejected in a world
where it does exist. -/
theorem guard_boundary_rejection_witness :
    ensure_safe_path allOps () "/etc/passwd" =
      Except.error ("Access denied: Path is outside working directory") :=
  guard_boundary_rejection allOps () "/etc/passwd" sampleRoot sampleRoot
    [Component.rootDir, Component.normal "etc", Component.normal "passwd"]
    (by rfl) rfl rfl (by rfl) (by decide)

/-- C4: every file operation calls the guard on the caller-supplied path
first; when the guard rejects, the operation returns the guard's rejection
message verbatim and the world (the filesystem state) is unchanged — no
filesystem primitive is invoked. -/
theorem ops_guard_first {W : Type} (ops : FsOps W) (w : W) (path e : String)
    (h : ensure_safe_path ops w path = Except.error e) :
    read_json ops w path = Except.error e ∧
    (∀ content, write_json ops w path content = (Except.error e, w)) ∧
    (∀ bytes, write_binary_file ops w path bytes = (Except.error e, w)) ∧
    list_files ops w path = Except.error e ∧
    delete_file ops w path = (Except.error e, w) := by
  refine ⟨?_, fun content => ?_, fun bytes => ?_, ?_, ?_⟩ <;>
    simp [read_json, write_json, write_binary_file, list_files, delete_file, h]

/-- Witness for C4: with the rejected candidate `/etc/passwd`, all five
operations return the guard's message and leave the world unchanged. -/
theorem ops_guard_first_witness :
    read_json allOps () "/etc/passwd" =
      Except.error ("Access denied: Path is outside working directory") ∧
    write_json allOps () "/etc/passwd" "x" =
      (Except.error ("Access denied: Path is outside working directory"), ()) ∧
    write_binary_file allOps () "/etc/passwd" [0] =
      (Except.error ("Access denied: Path is outside working directory"), ()) ∧
    list_files allOps () "/etc/passwd" =
      Except.error ("Access denied: Path is outside working directory") ∧
    delete_file allOps () "/etc/passwd" =
      (Except.error ("Access denied: Path is outside working directory"), ()) := by
  obtain ⟨h1, h2, h3, h4, h5⟩ :=
    ops_guard_first allOps () "/etc/passwd"
      "Access denied: Path is outside working directory" (by rfl)
  exact ⟨h1, h2 "x", h3 [0], h4, h5⟩

/-- Counterexample to C5 as stated: failure to obtain the current working
directory is surfaced as an ordinary per-call rejection of the individual
operation — `read_json` returns the environment error for that call — rather
than being a fatal startup condition that is never seen per call. -/
theorem cwd_failure_per_call_cex :
    read_json badOps () "settings.json" = Except.error ("boom") := rfl

/-- C5 (amended): failure to obtain or to canonicalize the current working
directory is surfaced as a per-call rejection: the guard, invoked afresh by
each operation, returns that error string for the call; nothing in the guard
treats it as a distinct fatal condition. -/
theorem cwd_failure_propagates {W : Type} (ops : FsOps W) (w : W) (s e : String) :
    (ops.currentDir w = Except.error e → ensure_safe_path ops w s = Except.error e) ∧
    (∀ cwd0, ops.currentDir w = Except.ok cwd0 → ops.canonicalize w cwd0 = Except.error e →
      ensure_safe_path ops w s = Except.error e) := by
  constructor
  · intro h
    simp [ensure_safe_path, h]
  · intro cwd0 h0 h1
    simp [ensure_safe_path, h0, h1]

/-- Witness for the amended C5: in the world whose working-directory lookup
fails with `boom`, the guard rejects this very call with `boom`. -/
theorem cwd_failure_propagates_witness :
    ensure_safe_path badOps () "data.json" = Except.error ("boom") :=
  (cwd_failure_propagates badOps () "data.json" "boom").1 rfl

/-- Counterexample to C6 as stated: with identical filesystem primitives
(existence and canonicalization do not depend on the ambient state) and the
same candidate `/a/x.txt`, the guard approves when the ambient working
directory is `/a` and rejects when it is `/b` — the root is re-derived from
the ambient working directory at each invocation, not established once. -/
theorem root_cwd_dependence_cex :
    ensure_safe_path cexOps true "/a/x.txt" =
      Except.ok [Component.rootDir, Component.normal "a", Component.normal "x.txt"] ∧
    ensure_safe_path cexOps false "/a/x.txt" =
      Except.error ("Access denied: Path is outside working directory") :=
  ⟨rfl, rfl⟩

/-- C6 (amended): the guard's decision is a deterministic function of the
candidate and the ambient state it reads at call time — the working-directory
lookup, canonicalization and existence primitives.  Two invocations agreeing
on those (in particular, on the ambient working directory) yield the same
decision; the counterexample shows invocations under different working
directories need not. -/
theorem guard_deterministic_in_ambient {W : Type} (ops : FsOps W) (w1 w2 : W) (s : String)
    (hcd : ops.currentDir w1 = ops.currentDir w2)
    (hcan : ∀ p, ops.canonicalize w1 p = ops.canonicalize w2 p)
    (hex : ∀ p, ops.pathExists w1 p = ops.pathExists w2 p) :
    ensure_safe_path ops w1 s = ensure_safe_path ops w2 s := by
  have hexf : ops.pathExists w1 = ops.pathExists w2 := funext hex
  simp only [ensure_safe_path, checkTarget, hcd, hcan, hexf]

/-- Witness for the amended C6: two calls in the same ambient state decide the
same way. -/
theorem guard_deterministic_in_ambient_witness :
    ensure_safe_path sampleOps () "logs/app.log" = ensure_safe_path sampleOps () "logs/app.log" :=
  guard_deterministic_in_ambient sampleOps () () "logs/app.log" rfl (fun _ => rfl) (fun _ => rfl)

/-- C7: both the empty candidate and the candidate `.` are approved, and in
both cases the returned path is component-wise equal to the canonicalized
working directory itself, provided the working directory canonicalizes to an
absolute root that exists and is canonical. -/
theorem guard_empty_and_dot {W : Type} (ops : FsOps W) (w : W) (cwd0 root : RPath)
    (h0 : ops.currentDir w = Except.ok cwd0)
    (h1 : ops.canonicalize w cwd0 = Except.ok root)
    (habs : isAbsolute root = true)
    (hex : ops.pathExists w root = true)
    (hroot : ops.canonicalize w root = Except.ok root) :
    ensure_safe_path ops w "" = Except.ok root ∧
    ensure_safe_path ops w "." = Except.ok root := by
  have hne : root ≠ [] := by
    intro hh
    rw [hh] at habs
    simp [isAbsolute] at habs
  have hca : ∀ l', l' <+: ([] : List Component) →
      ops.canonicalize w (root ++ l') = Except.ok (root ++ l') := by
    intro l' hl'
    rw [List.prefix_nil.mp hl', List.append_nil]
    exact hroot
  constructor
  · have hp1 : resolveTarget root (parseComponents "") = root ++ [] := by
      have hparse : parseComponents "" = ([] : RPath) := rfl
      rw [hparse, List.append_nil]
      simp [resolveTarget, pushJoin, isAbsolute, hne]
    have h := guard_ok_of_sane ops w cwd0 root [] "" h0 h1 hex (by simp) (by simp) hca hp1
    rw [List.append_nil] at h
    exact h
  · have hp2 : resolveTarget root (parseComponents ".") = root ++ [] := by
      have hparse : parseComponents "." = ([Component.curDir] : RPath) := rfl
      rw [hparse, List.append_nil]
      simp [resolveTarget, pushJoin, isAbsolute, hne]
    have h := guard_ok_of_sane ops w cwd0 root [] "." h0 h1 hex (by simp) (by simp) hca hp2
    rw [List.append_nil] at h
    exact h

/-- Witness for C7: in the `/work` world, both the empty string and `.`
resolve to `/work` itself. -/
theorem guard_empty_and_dot_witness :
    ensure_safe_path sampleOps () "" = Except.ok sampleRoot ∧
    ensure_safe_path sampleOps () "." = Except.ok sampleRoot :=
  guard_empty_and_dot sampleOps () sampleRoot sampleRoot rfl rfl rfl (by decide) rfl

/-- C8: on approval the guard returns the resolved path — the candidate
verbatim when absolute, otherwise the working directory joined with the
candidate — and not the canonicalized ancestor recombined with the suffix: the
returned value is computed before any canonicalization of the target and the
non-existing suffix is left untouched. -/
theorem guard_returns_resolved {W : Type} (ops : FsOps W) (w : W) (s : String) (t : RPath)
    (h : ensure_safe_path ops w s = Except.ok t) :
    ∃ cwd0 cwd,
      ops.currentDir w = Except.ok cwd0 ∧
      ops.canonicalize w cwd0 = Except.ok cwd ∧
      t = (if isAbsolute (parseComponents s) = true then parseComponents s
        else pushJoin cwd (parseComponents s)) := by
  obtain ⟨cwd0, cwd, h0, h1, hct⟩ := ensure_ok_elim h
  obtain ⟨hrt, -⟩ := checkTarget_ok_elim hct
  refine ⟨cwd0, cwd, h0, h1, ?_⟩
  rw [hrt]
  rfl

/-- Witness for C8: in the symlink world, `LINK/new.txt` is approved and the
returned path is the uncanonicalized `/work/LINK/new.txt`, not the
recombination `/work/real/new.txt` of the canonical ancestor with the
suffix. -/
theorem guard_returns_resolved_witness :
    ∃ cwd0 cwd,
      symOps.currentDir () = Except.ok cwd0 ∧
      symOps.canonicalize () cwd0 = Except.ok cwd ∧
      [Component.rootDir, Component.normal "work", Component.normal "LINK",
          Component.normal "new.txt"] =
        (if isAbsolute (parseComponents "LINK/new.txt") = true then
          parseComponents "LINK/new.txt"
        else pushJoin cwd (parseComponents "LINK/new.txt")) :=
  guard_returns_resolved symOps () "LINK/new.txt"
    [Component.rootDir, Component.normal "work", Component.normal "LINK",
      Component.normal "new.txt"] (by rfl)

/-- C9: for segment strings that are single plain components (nonempty, no
separator, not `.` or `..`, hence neither absolute nor parent-directory
segments), `join_path` produces exactly those segments, feeding the joined
string to `ensure_safe_path` yields approval in a sane world, and the approved
path is the root extended by those segments; moreover `join_path` never fails
on any input sequence. -/
theorem join_then_validate {W : Type} (ops : FsOps W) (w : W) (cwd0 root : RPath)
    (parts : List String)
    (hplain : ∀ s ∈ parts, plainSeg s)
    (h0 : ops.currentDir w = Except.ok cwd0)
    (h1 : ops.canonicalize w cwd0 = Except.ok root)
    (habs : isAbsolute root = true)
    (hex : ops.pathExists w root = true)
    (hca : ∀ l', l' <+: parts.map Component.normal →
      ops.canonicalize w (root ++ l') = Except.ok (root ++ l')) :
    join_path parts = Except.ok (parts.map Component.normal) ∧
    ensure_safe_path ops w (joinedString parts) =
      Except.ok (root ++ parts.map Component.normal) ∧
    ∀ anyParts : List String, ∃ q, join_path anyParts = Except.ok q := by
  have hne : root ≠ [] := by
    intro hh
    rw [hh] at habs
    simp [isAbsolute] at habs
  refine ⟨join_path_plain parts hplain, ?_, fun anyParts => ⟨_, rfl⟩⟩
  have habs2 : isAbsolute (parts.map Component.normal) = false := by
    cases parts with
    | nil => rfl
    | cons t r => rfl
  have hfil : (parts.map Component.normal).filter
      (fun c => decide (¬ c = Component.curDir)) = parts.map Component.normal := by
    apply List.filter_eq_self.mpr
    intro c hc
    obtain ⟨s, -, rfl⟩ := List.mem_map.mp hc
    simp
  have hparse : resolveTarget root (parseComponents (joinedString parts)) =
      root ++ parts.map Component.normal := by
    rw [parse_joined parts hplain]
    unfold resolveTarget pushJoin
    rw [if_neg (by simp [habs2]), if_neg (by simp [habs2]), if_neg hne, hfil]
  exact guard_ok_of_sane ops w cwd0 root (parts.map Component.normal) (joinedString parts)
    h0 h1 hex
    (by
      intro hm
      obtain ⟨s, -, heq⟩ := List.mem_map.mp hm
      exact Component.noConfusion heq)
    (by
      intro hm
      obtain ⟨s, -, heq⟩ := List.mem_map.mp hm
      exact Component.noConfusion heq)
    hca hparse

/-- Witness for C9: joining `["a","b","c"]` and validating the joined string
in the `/work` world approves with `/work/a/b/c`. -/
theorem join_then_validate_witness :
    join_path ["a", "b", "c"] = Except.ok (["a", "b", "c"].map Component.normal) ∧
    ensure_safe_path sampleOps () (joinedString ["a", "b", "c"]) =
      Except.ok (sampleRoot ++ ["a", "b", "c"].map Component.normal) ∧
    ∀ anyParts : List String, ∃ q, join_path anyParts = Except.ok q :=
  join_then_validate sampleOps () sampleRoot sampleRoot ["a", "b", "c"]
    (by decide) rfl rfl rfl (by decide) (fun l' _ => rfl)

/-- Helper: collecting over a list of successfully read entries succeeds and
keeps, in order, exactly the names of regular-file entries with a valid UTF-8
name. -/
theorem collectFiles_ok (entries : List DirEntry) :
    collectFiles (entries.map Except.ok) =
      Except.ok (entries.filterMap (fun d => if d.isFile then d.fileName.bind id else none)) := by
  induction entries with
  | nil => rfl
  | cons d rest ih =>
    simp only [List.map_cons, collectFiles, ih, List.filterMap_cons]
    cases hf : d.isFile
    · simp
    · cases hn : d.fileName with
      | none => simp
      | some o =>
        cases o with
        | none => simp
        | some name => simp

/-- C10: when the guard approves and the directory is read successfully with
every entry readable, `list_files` succeeds and returns exactly the names of
the entries that are regular files (hence never directories) and have a valid
UTF-8 file name, in directory order; an entry whose name is not valid UTF-8
(inner `none`) is silently omitted, with no error and no placeholder. -/
theorem list_files_filters {W : Type} (ops : FsOps W) (w : W) (path : String) (p : RPath)
    (entries : List DirEntry)
    (hok : ensure_safe_path ops w path = Except.ok p)
    (hdir : ops.readDir w p = Except.ok (entries.map Except.ok)) :
    list_files ops w path =
      Except.ok (entries.filterMap (fun d => if d.isFile then d.fileName.bind id else none)) := by
  simp [list_files, hok, hdir, collectFiles_ok]

/-- Witness for C10: listing `/work` in the sample world returns only
`a.json`, silently skipping the directory entry, the file with a non-UTF-8
name, and the file without a name. -/
theorem list_files_filters_witness :
    list_files sampleOps () "" = Except.ok ["a.json"] := by
  have h := list_files_filters sampleOps () "" sampleRoot sampleEntries (by rfl) (by rfl)
  rw [h]
  rfl

/-- Sanity theorem: the component parser agrees with Rust `Path::components`
on representative inputs — normalization of `.`, repeated and trailing
separators, the leading-`.` rule, `..`, and absolute paths. -/
theorem parseComponents_examples :
    parseComponents "" = [] ∧
    parseComponents "." = [Component.curDir] ∧
    parseComponents "./a" = [Component.curDir, Component.normal "a"] ∧
    parseComponents "/etc/passwd" =
      [Component.rootDir, Component.normal "etc", Component.normal "passwd"] ∧
    parseComponents "a/./b//c/" =
      [Component.normal "a", Component.normal "b", Component.normal "c"] ∧
    parseComponents "../x" = [Component.parentDir, Component.normal "x"] ∧
    parseComponents "/." = [Component.rootDir] := by
  refine ⟨?_, ?_, ?_, ?_, ?_, ?_, ?_⟩ <;> decide
